import Mathlib

/-!
Verification of the scrapetable render pipeline (`src/scrapetable.py`).

The embedding models:

* `_merge_colspan_headers` — collapsing pandas tuple/int/str column names
  into flat string labels (src lines 81-105).
* the header-selection logic of
  `_write_dataframe_as_arrow_table_and_handle_lots_of_edge_cases`
  (src lines 138-144): whether the CSV handed to the tabular parser starts
  with the supplied column names or with the table's own first row.
* `parse_csv` — the external tabular parser (cjwparse) that performs
  normalization.  It is an out-of-scope collaborator (its code is not in
  this repository), so it is modelled from the spec, §4.4
  NormalizationGuardrails.
* `_render_v0` — the legacy columnar path (src lines 157-175).
* `render` — the dispatching pipeline (src lines 178-289).
* the charset extraction from the Content-Type header (src lines 217-224),
  including a faithful model of Python's `str.split`.

Text cells are `List Char`; byte sizes are UTF-8 byte counts.
-/

namespace Scrapetable

/-- A text cell, as a list of characters. -/
abbrev Cell := List Char

/-- A row of text cells. -/
abbrev Row := List Cell

/-- UTF-8 byte length of a text. -/
def utf8Len (s : Cell) : Nat := (s.map Char.utf8Size).sum

/-- The settings protocol of src lines 50-58: all numeric limits. -/
structure Settings where
  MAX_ROWS_PER_TABLE : Nat
  MAX_COLUMNS_PER_TABLE : Nat
  MAX_BYTES_PER_VALUE : Nat
  MAX_BYTES_TEXT_DATA : Nat
  MAX_BYTES_PER_COLUMN_NAME : Nat
  MAX_CSV_BYTES : Nat
  MAX_DICTIONARY_PYLIST_N_BYTES : Nat
  MIN_DICTIONARY_COMPRESSION_RATIO_PYLIST_N_BYTES : Rat

/-- A typed value in a normalized table: text, or an auto-converted number. -/
inductive Scalar where
  | int (i : Int)
  | text (s : Cell)
deriving DecidableEq

/-- One column of a normalized table. -/
structure NColumn where
  name : Cell
  values : List Scalar
deriving DecidableEq

/-- The final artifact: the normalized, bounded columnar table. -/
structure NormalizedTable where
  columns : List NColumn
deriving DecidableEq

/-- A diagnostic, identified by its stable code plus parameters
(`I18nMessage` in the source). `fetchError` stands for any message carried
forward from a prior fetch attempt. The truncation/cleanup codes stand for
the non-fatal warnings the tabular parser returns. -/
inductive Diagnostic where
  | fetchError (msg : Cell)
  | httpNotOk (httpStatus : Cell)
  | htmlNoTables
  | htmlNoColumns
  | paramsBadTablenum (nTables : Nat)
  | cleanedColumnNames
  | truncatedRows
  | truncatedColumns
  | truncatedValues
deriving DecidableEq

/-- Decimal digits of a natural number (canonical form, no leading zeros). -/
def natRepr (n : Nat) : Cell := Nat.toDigits 10 n

/-- Canonical decimal text of an integer, mirroring Python `str(int)`. -/
def intRepr : Int → Cell
  | Int.ofNat n => natRepr n
  | Int.negSucc n => '-' :: natRepr (n + 1)

/-- Accumulating decimal parse of a digit string; `none` on a non-digit. -/
def parseDigitsGo (acc : Nat) : Cell → Option Nat
  | [] => some acc
  | c :: rest =>
    if '0' ≤ c ∧ c ≤ '9' then parseDigitsGo (acc * 10 + (c.toNat - '0'.toNat)) rest
    else none

/-- Raw integer parse: optional minus sign then decimal digits. -/
def rawParseInt : Cell → Option Int
  | [] => none
  | '-' :: rest =>
    if rest.isEmpty then none
    else (parseDigitsGo 0 rest).map (fun n => -(n : Int))
  | s => (parseDigitsGo 0 s).map Int.ofNat

/-- Parse a text as an integer only when the text is the canonical decimal
form of that integer (so the conversion is a faithful round-trip). Models
the external parser's opportunistic text-to-number conversion. -/
def parseIntCanonical (s : Cell) : Option Int :=
  match rawParseInt s with
  | some i => if intRepr i = s then some i else none
  | none => none

/-- Parse every cell of a column as a canonical integer, or fail. -/
def parseAllInts : List Cell → Option (List Int)
  | [] => some []
  | c :: rest =>
    match parseIntCanonical c, parseAllInts rest with
    | some i, some is => some (i :: is)
    | _, _ => none

/-- Longest character prefix whose UTF-8 byte length fits in `n` bytes:
truncation at a byte boundary. -/
def truncBytes (n : Nat) : Cell → Cell
  | [] => []
  | c :: rest =>
    if c.utf8Size ≤ n then c :: truncBytes (n - c.utf8Size) rest else []

/-- Total UTF-8 byte size of one row. -/
def rowBytes (r : Row) : Nat := (r.map utf8Len).sum

/-- Modelled from the spec (§4.4, step 6, aggregate truncation): keep the
longest prefix of rows whose cumulative text payload fits in the budget;
once the budget would be exceeded, no further rows are accepted. -/
def takeRowsWithinBudget (budget : Nat) : List Row → List Row
  | [] => []
  | r :: rest =>
    if rowBytes r ≤ budget then r :: takeRowsWithinBudget (budget - rowBytes r) rest
    else []

/-- Number of columns of a raw grid: the widest row. -/
def gridNCols (grid : List Row) : Nat :=
  grid.foldr (fun r m => max r.length m) 0

/-- Pad (or cut) a row to exactly `n` cells, filling with empty text.
The RawGrid invariant of §3: short rows are padded, not an error. -/
def padRow (n : Nat) (r : Row) : Row :=
  r.take n ++ List.replicate (n - r.length) []

/-- The literal text `Column `. -/
def columnWord : Cell := ['C', 'o', 'l', 'u', 'm', 'n', ' ']

/-- Modelled from the spec (§4.4, step 2): blank labels are auto-named
`Column N` using the 1-based position; `i` is the 0-based position. -/
def autonameBlanks : Nat → List Cell → List Cell
  | _, [] => []
  | i, n :: rest =>
    (if n.isEmpty then columnWord ++ natRepr (i + 1) else n) :: autonameBlanks (i + 1) rest

/-- Modelled from the spec (§4.4, step 2): duplicate labels are
disambiguated deterministically by position (append the 1-based position). -/
def dedupNames (seen : List Cell) : Nat → List Cell → List Cell
  | _, [] => []
  | i, n :: rest =>
    let n' := if n ∈ seen then n ++ ' ' :: natRepr (i + 1) else n
    n' :: dedupNames (n' :: seen) (i + 1) rest

/-- Modelled from the spec (§4.4, step 2, label cleanup): auto-name blanks,
disambiguate duplicates, then truncate every label at a byte boundary to
`MAX_BYTES_PER_COLUMN_NAME`. -/
def cleanColnames (settings : Settings) (hdr : List Cell) : List Cell :=
  (dedupNames [] 0 (autonameBlanks 0 hdr)).map
    (truncBytes settings.MAX_BYTES_PER_COLUMN_NAME)

/-- The `j`-th cell of every row (empty text when a row is short). -/
def colValues (rows : List Row) (j : Nat) : List Cell :=
  rows.map (fun r => r.getD j [])

/-- Modelled from the spec (§4.4, step 7, type inference): a non-empty
column whose every value is a canonical integer becomes a number column;
anything else stays text. -/
def inferColumn (name : Cell) (values : List Cell) : NColumn :=
  if values.isEmpty then ⟨name, []⟩
  else
    match parseAllInts values with
    | some is => ⟨name, is.map Scalar.int⟩
    | none => ⟨name, values.map Scalar.text⟩

/-- Column count of the normalized table: the grid's width, truncated to
`MAX_COLUMNS_PER_TABLE` (spec §4.4, step 4). -/
def normNCols (settings : Settings) (grid : List Row) : Nat :=
  min (gridNCols grid) settings.MAX_COLUMNS_PER_TABLE

/-- The data rows (everything after the header row), truncated to
`MAX_ROWS_PER_TABLE` (spec §4.4, step 3). -/
def rawDataRows (settings : Settings) (grid : List Row) : List Row :=
  grid.tail.take settings.MAX_ROWS_PER_TABLE

/-- The normalized data rows: padded to the column count, every value
truncated to `MAX_BYTES_PER_VALUE`, rows beyond the `MAX_BYTES_TEXT_DATA`
aggregate budget dropped (spec §4.4, steps 3-6). -/
def normRows (settings : Settings) (grid : List Row) : List Row :=
  takeRowsWithinBudget settings.MAX_BYTES_TEXT_DATA
    ((rawDataRows settings grid).map
      (fun r => (padRow (normNCols settings grid) r).map
        (truncBytes settings.MAX_BYTES_PER_VALUE)))

/-- The cleaned column names: the header row, padded and cleaned up
(spec §4.4, steps 1-2). -/
def normNames (settings : Settings) (grid : List Row) : List Cell :=
  cleanColnames settings (padRow (normNCols settings grid) (grid.headD []))

/-- Modelled from the spec: `cjwparse.csv.parse_csv` with `has_header=True`,
the external NormalizationGuardrails collaborator (§4.4), whose code is not
in this repository. Input is the grid of the CSV handed to it (first row =
header). Applies, in order: header resolution, label cleanup, row
truncation, column truncation (with padding per the RawGrid invariant),
value truncation, the aggregate text budget, and type inference. Returns
the table and non-fatal warnings. -/
def parse_csv (grid : List Row) (settings : Settings) :
    NormalizedTable × List Diagnostic :=
  let ncols := normNCols settings grid
  let rows := normRows settings grid
  let names := normNames settings grid
  let columns := (List.range ncols).map
    (fun j => inferColumn (names.getD j []) (colValues rows j))
  let warnings :=
    (if settings.MAX_COLUMNS_PER_TABLE < gridNCols grid
     then [Diagnostic.truncatedColumns] else [])
    ++ (if settings.MAX_ROWS_PER_TABLE < grid.tail.length
           ∨ rows.length < (rawDataRows settings grid).length
        then [Diagnostic.truncatedRows] else [])
    ++ (if names ≠ padRow ncols (grid.headD []) then [Diagnostic.cleanedColumnNames] else [])
    ++ (if (rawDataRows settings grid).any
          (fun r => r.any (fun c => settings.MAX_BYTES_PER_VALUE < utf8Len c))
        then [Diagnostic.truncatedValues] else [])
  (⟨columns⟩, warnings)

/-- The CSV grid built by
`_write_dataframe_as_arrow_table_and_handle_lots_of_edge_cases`
(src lines 138-144): with `first_row_is_header` and at least one data row,
`to_csv(header=False)` writes only the data rows (so the parser treats the
table's first row as header); otherwise `to_csv(header=colnames)` writes
the supplied column names as the first row. CSV serialization itself is
the identity on this grid model. -/
def csv_grid (first_row_is_header : Bool) (table : List Row) (colnames : List Cell) :
    List Row :=
  if first_row_is_header && !table.isEmpty then table else colnames :: table

/-- `_write_dataframe_as_arrow_table_and_handle_lots_of_edge_cases`
(src lines 108-154): build the CSV grid, then delegate to the external
tabular parser with `has_header=True`. -/
def _write_dataframe_as_arrow_table_and_handle_lots_of_edge_cases
    (table : List Row) (first_row_is_header : Bool) (colnames : List Cell)
    (settings : Settings) : NormalizedTable × List Diagnostic :=
  parse_csv (csv_grid first_row_is_header table colnames) settings

/-- How `DataFrame.to_csv` prints an already-typed value: numbers in
canonical decimal, text verbatim (demotion back to text, §4.5). -/
def scalarToText : Scalar → Cell
  | Scalar.int i => intRepr i
  | Scalar.text s => s

/-- `_render_v0` (src lines 157-175): read the legacy columnar snapshot as
a typed table, demote every value to text, rebuild the row grid, and feed
it to the same normalization stage with the existing column names. -/
def _render_v0 (tbl : NormalizedTable) (first_row_is_header : Bool)
    (settings : Settings) : NormalizedTable × List Diagnostic :=
  let colnames := tbl.columns.map (fun c => c.name)
  let rows := (tbl.columns.map (fun c => c.values.map scalarToText)).transpose
  _write_dataframe_as_arrow_table_and_handle_lots_of_edge_cases
    rows first_row_is_header colnames settings

/-- A column name as produced by `pandas.read_html`: a plain string, a
positional integer (no header markup), or a tuple (multi-row/colspan
headers). -/
inductive ColName where
  | str (s : Cell)
  | int (n : Nat)
  | tup (parts : List Cell)
deriving DecidableEq

/-- First-occurrence deduplication, mirroring Python's
`dict((s, None) for s in name).keys()`: keys in insertion order. -/
def dedupFirstGo (seen : List Cell) : List Cell → List Cell
  | [] => []
  | s :: rest =>
    if s ∈ seen then dedupFirstGo seen rest
    else s :: dedupFirstGo (s :: seen) rest

/-- First-occurrence deduplication of a tuple's texts. -/
def dedupFirst (parts : List Cell) : List Cell := dedupFirstGo [] parts

/-- The separator `" - "`. -/
def sepDash : Cell := [' ', '-', ' ']

/-- Python `" - ".join`. -/
def joinDash : List Cell → Cell
  | [] => []
  | [s] => s
  | s :: rest => s ++ sepDash ++ joinDash rest

/-- `_merge_colspan_headers` (src lines 81-105): tuples collapse to their
deduplicated texts joined by `" - "`; integer (positional) names become
the empty string, deferring auto-naming; strings pass through. -/
def _merge_colspan_headers (names : List ColName) : List Cell :=
  names.map fun n =>
    match n with
    | ColName.tup parts => joinDash (dedupFirst parts)
    | ColName.int _ => []
    | ColName.str s => s

/-- The literal text `charset=`. -/
def charsetSep : Cell := ['c', 'h', 'a', 'r', 's', 'e', 't', '=']

/-- Fuel-driven model of Python `s.split("charset=")`: scan left to right,
cut at each non-overlapping occurrence of the separator. The fuel only
makes the recursion structural; `splitCharset` supplies enough of it. -/
def splitCharsetF : Nat → Cell → List Cell
  | 0, s => [s]
  | _ + 1, [] => [[]]
  | fuel + 1, c :: rest =>
    if charsetSep.isPrefixOf (c :: rest) then
      [] :: splitCharsetF fuel (rest.drop 7)
    else
      match splitCharsetF fuel rest with
      | [] => [[c]]
      | p :: ps => (c :: p) :: ps

/-- Python `s.split("charset=")`. -/
def splitCharset (s : Cell) : List Cell := splitCharsetF (s.length + 1) s

/-- The charset extraction of src lines 217-224:
`content_type.split("charset=")[1]` guarded by the truthiness check and
the `IndexError` handler, so a missing header or missing parameter yields
`none` instead of an error. -/
def extract_encoding (contentType : Option Cell) : Option Cell :=
  match contentType with
  | none => none
  | some ct =>
    if ct.isEmpty then none
    else
      match splitCharset ct with
      | _ :: e :: _ => some e
      | _ => none

/-- The literal header name `Content-Type`. -/
def contentTypeName : Cell :=
  ['C', 'o', 'n', 't', 'e', 'n', 't', '-', 'T', 'y', 'p', 'e']

/-- `httpfile.extract_first_header`: the value of the first header with the
given name (external helper from cjwmodule, modelled by its contract). -/
def extract_first_header (headers : List (Cell × Cell)) (name : Cell) : Option Cell :=
  match headers with
  | [] => none
  | (n, v) :: rest => if n = name then some v else extract_first_header rest name

/-- One table located in the document by `pd.io.html._parse`: pandas column
names (possibly tuples from colspan merging) plus text data rows. -/
structure LocatedTable where
  colnames : List ColName
  rows : List Row
deriving DecidableEq

/-- Outcome of `pd.io.html._parse` on the response body: a list of located
tables, or the `ValueError` / `IndexError` the source catches. -/
inductive ParseOutcome where
  | tables (ts : List LocatedTable)
  | valueError
  | indexError

/-- The captured HTTP response exposed by `httpfile.read`: status line,
headers, and the body — modelled as the (external) markup parser's outcome
as a function of the charset hint passed to it. -/
structure CapturedResponse where
  status_line : Cell
  headers : List (Cell × Cell)
  parseBody : Option Cell → ParseOutcome

/-- The stored snapshot, by the three-way dispatch of src lines 189-198:
zero bytes, a parquet (legacy v0) file holding a typed table, or a v1 HTTP
capture. -/
inductive Snapshot where
  | empty
  | legacyColumnar (tbl : NormalizedTable)
  | httpCapture (resp : CapturedResponse)

/-- The module parameters used by `render`. -/
structure Params where
  tablenum : Int
  first_row_is_header : Bool

/-- The literal status line `200 OK`. -/
def okStatus : Cell := ['2', '0', '0', ' ', 'O', 'K']

/-- `render` (src lines 178-289). Returns the diagnostic list and the table
written to `output_path` (`none` when the pipeline stops without writing
one). Carried-forward fetch diagnostics come first; the empty snapshot
returns them alone; the legacy path delegates to `_render_v0`; the HTTP
path checks the status line, extracts the charset hint, parses the body,
validates the table ordinal, and normalizes the selected table. -/
def render (fetchErrors : List Diagnostic) (snapshot : Snapshot) (params : Params)
    (settings : Settings) : List Diagnostic × Option NormalizedTable :=
  match snapshot with
  | Snapshot.empty => (fetchErrors, none)
  | Snapshot.legacyColumnar tbl =>
    let pr := _render_v0 tbl params.first_row_is_header settings
    (fetchErrors ++ pr.2, some pr.1)
  | Snapshot.httpCapture resp =>
    if resp.status_line ≠ okStatus then
      (fetchErrors ++ [Diagnostic.httpNotOk resp.status_line], none)
    else
      let contentType := extract_first_header resp.headers contentTypeName
      let encoding := extract_encoding contentType
      match resp.parseBody encoding with
      | ParseOutcome.valueError => (fetchErrors ++ [Diagnostic.htmlNoTables], none)
      | ParseOutcome.indexError => (fetchErrors ++ [Diagnostic.htmlNoColumns], none)
      | ParseOutcome.tables ts =>
        if ts.isEmpty then (fetchErrors ++ [Diagnostic.htmlNoTables], none)
        else if params.tablenum ≤ 0 ∨ (ts.length : Int) < params.tablenum then
          (fetchErrors ++ [Diagnostic.paramsBadTablenum ts.length], none)
        else
          let t := ts.getD (params.tablenum - 1).toNat ⟨[], []⟩
          let pr := _write_dataframe_as_arrow_table_and_handle_lots_of_edge_cases
            t.rows params.first_row_is_header (_merge_colspan_headers t.colnames)
            settings
          (fetchErrors ++ pr.2, some pr.1)

/-- Byte size of a scalar, as its text representation. -/
def Scalar.nbytes : Scalar → Nat
  | Scalar.int i => utf8Len (intRepr i)
  | Scalar.text s => utf8Len s

/-- Inverse of `splitCharset`: join the parts back with the separator. -/
def joinCharset : List Cell → Cell
  | [] => []
  | [p] => p
  | p :: ps => p ++ charsetSep ++ joinCharset ps

/-! Concrete data used to instantiate the general theorems. -/

/-- A concrete settings bundle (generous limits, like the defaults the
host supplies). -/
def testSettings : Settings :=
  ⟨100, 50, 100, 10000, 100, 100000, 1000, 2⟩

/-- The text `A`. -/
def strA : Cell := ['A']

/-- The text `B`. -/
def strB : Cell := ['B']

/-- The text `year`. -/
def strYear : Cell := ['y', 'e', 'a', 'r']

/-- The text `Category`. -/
def strCat : Cell := ['C', 'a', 't', 'e', 'g', 'o', 'r', 'y']

/-- The status line `404 Not Found`. -/
def str404 : Cell := ['4', '0', '4', ' ', 'N', 'o', 't', ' ', 'F', 'o', 'u', 'n', 'd']

/-- A captured response whose status line is `404 Not Found`. -/
def resp404 : CapturedResponse :=
  ⟨str404, [], fun _ => ParseOutcome.tables []⟩

/-- A located table with one column and one row. -/
def oneTable : LocatedTable := ⟨[ColName.str strA], [[['a']]]⟩

/-- A `200 OK` response whose document contains exactly one table. -/
def respOneTable : CapturedResponse :=
  ⟨okStatus, [], fun _ => ParseOutcome.tables [oneTable]⟩

/-- The legacy columnar snapshot `{A: [1, 2], B: ["a", "b"]}`. -/
def legacyTbl : NormalizedTable :=
  ⟨[⟨strA, [Scalar.int 1, Scalar.int 2]⟩,
    ⟨strB, [Scalar.text ['a'], Scalar.text ['b']]⟩]⟩

/-- The header value `text/html; charset=utf-8`. -/
def ctExample : Cell :=
  ['t', 'e', 'x', 't', '/', 'h', 't', 'm', 'l', ';', ' ',
   'c', 'h', 'a', 'r', 's', 'e', 't', '=', 'u', 't', 'f', '-', '8']

/-- The text `utf-8`. -/
def strUtf8 : Cell := ['u', 't', 'f', '-', '8']

/-- The text `utf-8; `. -/
def hintTwo : Cell := ['u', 't', 'f', '-', '8', ';', ' ']

/-- A Content-Type value containing `charset=` twice:
`charset=utf-8; charset=x`. -/
def ctTwo : Cell := charsetSep ++ hintTwo ++ charsetSep ++ ['x']

/-! ### Helper lemmas -/

theorem dedupFirstGo_sublist (l : List Cell) :
    ∀ seen, List.Sublist (dedupFirstGo seen l) l := by
  induction l with
  | nil => intro seen; simp [dedupFirstGo]
  | cons s rest ih =>
    intro seen
    by_cases h : s ∈ seen
    · simp only [dedupFirstGo, if_pos h]
      exact (ih seen).cons s
    · simp only [dedupFirstGo, if_neg h]
      exact (ih (s :: seen)).cons₂ s

theorem dedupFirstGo_nodup (l : List Cell) :
    ∀ seen, (dedupFirstGo seen l).Nodup ∧ ∀ x ∈ dedupFirstGo seen l, x ∉ seen := by
  induction l with
  | nil => intro seen; simp [dedupFirstGo]
  | cons s rest ih =>
    intro seen
    by_cases h : s ∈ seen
    · simpa only [dedupFirstGo, if_pos h] using ih seen
    · simp only [dedupFirstGo, if_neg h]
      obtain ⟨hnd, hmem⟩ := ih (s :: seen)
      refine ⟨List.nodup_cons.2 ⟨fun hx => ?_, hnd⟩, ?_⟩
      · exact hmem s hx (List.mem_cons_self s seen)
      · intro x hx
        rcases List.mem_cons.1 hx with hxe | hx'
        · subst hxe; exact h
        · intro hxs
          exact hmem x hx' (List.mem_cons_of_mem _ hxs)

/-! ### Claim theorems -/

/-- C1: for every non-empty, non-legacy (HTTP-capture) snapshot whose
captured status line is not `200 OK`, `render` appends exactly one
`http.notOk` diagnostic carrying the literal status line, returns
immediately, and writes no table. -/
theorem C1_http_not_ok (fe : List Diagnostic) (resp : CapturedResponse)
    (p : Params) (s : Settings) (h : resp.status_line ≠ okStatus) :
    render fe (Snapshot.httpCapture resp) p s
      = (fe ++ [Diagnostic.httpNotOk resp.status_line], none) := by
  simp only [render, if_pos h]

/-- Witness for C1: a `404 Not Found` capture yields exactly the
`http.notOk` diagnostic with the literal status line and no table. -/
theorem C1_http_not_ok_witness :
    render [] (Snapshot.httpCapture resp404) ⟨1, false⟩ testSettings
      = ([Diagnostic.httpNotOk str404], none) :=
  C1_http_not_ok [] resp404 ⟨1, false⟩ testSettings (by decide)

/-- C3: every `render` invocation, on every path, returns a diagnostic
list that begins with the carried-forward fetch diagnostics in their
original order. -/
theorem C3_fetch_diagnostics_first (fe : List Diagnostic) (snap : Snapshot)
    (p : Params) (s : Settings) :
    ∃ rest, (render fe snap p s).1 = fe ++ rest := by
  cases snap with
  | empty => exact ⟨[], by simp [render]⟩
  | legacyColumnar tbl => exact ⟨_, rfl⟩
  | httpCapture resp =>
    simp only [render]
    repeat' first
      | exact ⟨_, rfl⟩
      | split

/-- C4: when tables are located but the requested ordinal is outside
`[1, table_count]`, `render` appends one `params.badTablenum` diagnostic
carrying the table count, stops, and writes no table. -/
theorem C4_bad_tablenum (fe : List Diagnostic) (resp : CapturedResponse)
    (p : Params) (s : Settings) (ts : List LocatedTable)
    (hok : resp.status_line = okStatus)
    (hb : resp.parseBody
        (extract_encoding (extract_first_header resp.headers contentTypeName))
        = ParseOutcome.tables ts)
    (hne : ts ≠ [])
    (hrange : p.tablenum ≤ 0 ∨ (ts.length : Int) < p.tablenum) :
    render fe (Snapshot.httpCapture resp) p s
      = (fe ++ [Diagnostic.paramsBadTablenum ts.length], none) := by
  have hnot : ¬ resp.status_line ≠ okStatus := by simpa using hok
  have hie : ts.isEmpty = false := by
    cases ts with
    | nil => exact absurd rfl hne
    | cons a l => rfl
  simp only [render, if_neg hnot, hb, hie, if_pos hrange]
  simp

/-- Witness for C4: a document with exactly one table, requested ordinal
2, yields `params.badTablenum` with `nTables = 1` and no table. -/
theorem C4_bad_tablenum_witness :
    render [] (Snapshot.httpCapture respOneTable) ⟨2, false⟩ testSettings
      = ([Diagnostic.paramsBadTablenum 1], none) :=
  C4_bad_tablenum [] respOneTable ⟨2, false⟩ testSettings [oneTable] rfl rfl
    (List.cons_ne_nil oneTable []) (Or.inr (by decide))

/-- C5: with `first_row_is_header = true` and at least one data row, the
grid itself (whose first row the parser then treats as header) is handed
to the parser and the supplied labels are discarded; with zero data rows
the supplied labels become the header row; concretely, header `A,B` over
zero data rows yields columns `A`, `B` with zero rows and no error. -/
theorem C5_first_row_header_resolution :
    (∀ (r : Row) (rs : List Row) (cn : List Cell) (s : Settings),
      _write_dataframe_as_arrow_table_and_handle_lots_of_edge_cases (r :: rs) true cn s
        = parse_csv (r :: rs) s)
  ∧ (∀ (cn : List Cell) (s : Settings),
      _write_dataframe_as_arrow_table_and_handle_lots_of_edge_cases [] true cn s
        = parse_csv [cn] s)
  ∧ _write_dataframe_as_arrow_table_and_handle_lots_of_edge_cases
      [] true [strA, strB] testSettings
      = (⟨[⟨strA, []⟩, ⟨strB, []⟩]⟩, []) :=
  ⟨fun _ _ _ _ => rfl, fun _ _ => rfl, by decide⟩

/-- C6: the header merger joins a tuple's distinct texts with `" - "`
keeping first-occurrence order (`('year','year')` gives `year`; the
colspan example gives `Category - A` and `Category - B`), integer
(positional) names give the empty string, and the deduplication keeps
an order-preserving duplicate-free selection of the texts. -/
theorem C6_merge_colspan_headers :
    _merge_colspan_headers [ColName.tup [strYear, strYear]] = [strYear]
  ∧ _merge_colspan_headers [ColName.tup [strCat, strA], ColName.tup [strCat, strB]]
      = [strCat ++ sepDash ++ strA, strCat ++ sepDash ++ strB]
  ∧ (∀ n, _merge_colspan_headers [ColName.int n] = [[]])
  ∧ (∀ parts, (dedupFirst parts).Nodup ∧ List.Sublist (dedupFirst parts) parts) :=
  ⟨by decide, by decide, fun _ => rfl,
   fun parts => ⟨(dedupFirstGo_nodup parts []).1, dedupFirstGo_sublist parts []⟩⟩

/-- C7: the legacy columnar snapshot `{A: [1, 2], B: ["a", "b"]}` with
`first_row_is_header = false` round-trips: the rendered table has the
same two columns and values, with the integer column re-inferred as
integers, and no diagnostics. -/
theorem C7_legacy_round_trip :
    render [] (Snapshot.legacyColumnar legacyTbl) ⟨1, false⟩ testSettings
      = ([], some legacyTbl) := by decide

/-- C8: a zero-byte snapshot returns exactly the carried-forward fetch
diagnostics and writes no table. -/
theorem C8_empty_snapshot (fe : List Diagnostic) (p : Params) (s : Settings) :
    render fe Snapshot.empty p s = (fe, none) := rfl

/-- C9: the header merger is the identity on a list of plain string
names: it returns the same labels verbatim, in order. -/
theorem C9_identity_on_plain_strings (ss : List Cell) :
    _merge_colspan_headers (ss.map ColName.str) = ss := by
  induction ss with
  | nil => rfl
  | cons s rest ih =>
    simp only [List.map_cons, _merge_colspan_headers] at ih ⊢
    exact congrArg (s :: ·) ih

theorem utf8Len_cons (c : Char) (s : Cell) :
    utf8Len (c :: s) = c.utf8Size + utf8Len s := by
  simp [utf8Len]

theorem utf8Len_truncBytes_le (n : Nat) (s : Cell) : utf8Len (truncBytes n s) ≤ n := by
  induction s generalizing n with
  | nil => simp [truncBytes, utf8Len]
  | cons c rest ih =>
    simp only [truncBytes]
    split
    · next h =>
      rw [utf8Len_cons]
      have := ih (n - c.utf8Size)
      omega
    · simp [utf8Len]

theorem takeRowsWithinBudget_sublist (rows : List Row) :
    ∀ b, List.Sublist (takeRowsWithinBudget b rows) rows := by
  induction rows with
  | nil => intro b; simp [takeRowsWithinBudget]
  | cons r rest ih =>
    intro b
    simp only [takeRowsWithinBudget]
    split
    · exact (ih _).cons₂ r
    · exact List.nil_sublist _

theorem parseAllInts_length (l : List Cell) :
    ∀ is, parseAllInts l = some is → is.length = l.length := by
  induction l with
  | nil =>
    intro is h
    simp only [parseAllInts, Option.some.injEq] at h
    subst h; rfl
  | cons c rest ih =>
    intro is h
    simp only [parseAllInts] at h
    cases hc : parseIntCanonical c with
    | none => rw [hc] at h; exact absurd h (by simp)
    | some i =>
      cases hr : parseAllInts rest with
      | none => rw [hc, hr] at h; exact absurd h (by simp)
      | some is' =>
        rw [hc, hr] at h
        injection h with h2
        subst h2
        simp [ih is' hr]

theorem parseAllInts_mem (l : List Cell) :
    ∀ is, parseAllInts l = some is →
      ∀ i ∈ is, ∃ t ∈ l, parseIntCanonical t = some i := by
  induction l with
  | nil =>
    intro is h
    simp only [parseAllInts, Option.some.injEq] at h
    subst h; simp
  | cons c rest ih =>
    intro is h
    simp only [parseAllInts] at h
    cases hc : parseIntCanonical c with
    | none => rw [hc] at h; exact absurd h (by simp)
    | some i =>
      cases hr : parseAllInts rest with
      | none => rw [hc, hr] at h; exact absurd h (by simp)
      | some is' =>
        rw [hc, hr] at h
        injection h with h2
        subst h2
        intro x hx
        rcases List.mem_cons.1 hx with hxe | hx'
        · exact ⟨c, List.mem_cons_self c rest, hxe ▸ hc⟩
        · obtain ⟨t, ht, hp⟩ := ih is' hr x hx'
          exact ⟨t, List.mem_cons_of_mem c ht, hp⟩

theorem parseIntCanonical_repr (t : Cell) (i : Int)
    (h : parseIntCanonical t = some i) : intRepr i = t := by
  unfold parseIntCanonical at h
  split at h
  · split at h
    · next hrepr => injection h with h2; subst h2; exact hrepr
    · exact absurd h (by simp)
  · exact absurd h (by simp)

theorem inferColumn_name (name : Cell) (vals : List Cell) :
    (inferColumn name vals).name = name := by
  unfold inferColumn
  split
  · rfl
  · split <;> rfl

theorem inferColumn_values_length (name : Cell) (vals : List Cell) :
    (inferColumn name vals).values.length = vals.length := by
  cases vals with
  | nil => rfl
  | cons v vs =>
    simp only [inferColumn, List.isEmpty_cons, Bool.false_eq_true, if_false]
    split
    · next is his => simp [parseAllInts_length (v :: vs) is his]
    · simp

theorem inferColumn_values_bound (B : Nat) (name : Cell) (vals : List Cell)
    (hv : ∀ t ∈ vals, utf8Len t ≤ B) :
    ∀ v ∈ (inferColumn name vals).values, Scalar.nbytes v ≤ B := by
  intro v hvmem
  unfold inferColumn at hvmem
  split at hvmem
  · simp at hvmem
  · split at hvmem
    · next is his =>
      rcases List.mem_map.1 hvmem with ⟨i, hi, rfl⟩
      obtain ⟨t, ht, hparse⟩ := parseAllInts_mem vals is his i hi
      have hrepr : intRepr i = t := parseIntCanonical_repr t i hparse
      simpa [Scalar.nbytes, hrepr] using hv t ht
    · rcases List.mem_map.1 hvmem with ⟨t, ht, rfl⟩
      simpa [Scalar.nbytes] using hv t ht

theorem getD_mem_or_default (r : List Cell) (j : Nat) :
    r.getD j [] ∈ r ∨ r.getD j [] = [] := by
  induction r generalizing j with
  | nil => right; rfl
  | cons x xs ih =>
    cases j with
    | zero => left; exact List.mem_cons_self _ _
    | succ jj =>
      rcases ih jj with h | h
      · left
        exact List.mem_cons_of_mem _ (by simpa using h)
      · right
        simpa using h

theorem cleanColnames_bound (s : Settings) (hdr : List Cell) :
    ∀ x ∈ cleanColnames s hdr, utf8Len x ≤ s.MAX_BYTES_PER_COLUMN_NAME := by
  intro x hx
  unfold cleanColnames at hx
  rcases List.mem_map.1 hx with ⟨y, _, rfl⟩
  exact utf8Len_truncBytes_le _ _

theorem normRows_cell_bound (s : Settings) (grid : List Row) :
    ∀ r ∈ normRows s grid, ∀ t ∈ r, utf8Len t ≤ s.MAX_BYTES_PER_VALUE := by
  intro r hr t ht
  have hr2 : r ∈ (rawDataRows s grid).map
      (fun r => (padRow (normNCols s grid) r).map (truncBytes s.MAX_BYTES_PER_VALUE)) :=
    (takeRowsWithinBudget_sublist _ _).subset hr
  rcases List.mem_map.1 hr2 with ⟨r0, _, rfl⟩
  rcases List.mem_map.1 ht with ⟨c0, _, rfl⟩
  exact utf8Len_truncBytes_le _ _

theorem normRows_length_le (s : Settings) (grid : List Row) :
    (normRows s grid).length ≤ s.MAX_ROWS_PER_TABLE := by
  have h1 := (takeRowsWithinBudget_sublist
    ((rawDataRows s grid).map
      (fun r => (padRow (normNCols s grid) r).map (truncBytes s.MAX_BYTES_PER_VALUE)))
    s.MAX_BYTES_TEXT_DATA).length_le
  have h2 : (rawDataRows s grid).length ≤ s.MAX_ROWS_PER_TABLE := by
    simp [rawDataRows]
  simpa [normRows, rawDataRows] using le_trans h1 (by simpa using h2)

/-- C2: for every settings object and every input grid, the table produced
by the normalization stage has column count within
`MAX_COLUMNS_PER_TABLE`, and every column has at most
`MAX_ROWS_PER_TABLE` values, a name of at most
`MAX_BYTES_PER_COLUMN_NAME` bytes, and values of at most
`MAX_BYTES_PER_VALUE` bytes each. -/
theorem C2_guardrail_bounds (s : Settings) (grid : List Row) :
    (parse_csv grid s).1.columns.length ≤ s.MAX_COLUMNS_PER_TABLE
  ∧ ∀ c ∈ (parse_csv grid s).1.columns,
      c.values.length ≤ s.MAX_ROWS_PER_TABLE
      ∧ utf8Len c.name ≤ s.MAX_BYTES_PER_COLUMN_NAME
      ∧ ∀ v ∈ c.values, Scalar.nbytes v ≤ s.MAX_BYTES_PER_VALUE := by
  constructor
  · simp [parse_csv, normNCols, min_le_right]
  · intro c hc
    simp only [parse_csv] at hc
    rcases List.mem_map.1 hc with ⟨j, _, rfl⟩
    refine ⟨?_, ?_, ?_⟩
    · rw [inferColumn_values_length]
      simpa [colValues] using normRows_length_le s grid
    · rw [inferColumn_name]
      rcases getD_mem_or_default (normNames s grid) j with h | h
      · exact cleanColnames_bound s _ _ h
      · rw [h]; exact Nat.zero_le _
    · apply inferColumn_values_bound
      intro t ht
      rcases List.mem_map.1 ht with ⟨r, hr, rfl⟩
      rcases getD_mem_or_default r j with h | h
      · exact normRows_cell_bound s grid r hr _ h
      · rw [h]; exact Nat.zero_le _

/-- Witness for C2: in the concrete table parsed from header `A` and data
row `5`, the inferred integer value `5` respects the value byte limit. -/
theorem C2_guardrail_bounds_witness :
    Scalar.nbytes (Scalar.int 5) ≤ testSettings.MAX_BYTES_PER_VALUE :=
  ((C2_guardrail_bounds testSettings [[strA], [['5']]]).2
    ⟨strA, [Scalar.int 5]⟩ (by decide)).2.2 (Scalar.int 5) (by decide)

theorem isPrefixOf_exists {l s : List Char} (h : l.isPrefixOf s = true) :
    ∃ t, s = l ++ t := by
  induction l generalizing s with
  | nil => exact ⟨s, rfl⟩
  | cons a l ih =>
    cases s with
    | nil => simp [List.isPrefixOf] at h
    | cons b s' =>
      simp only [List.isPrefixOf, Bool.and_eq_true, beq_iff_eq] at h
      obtain ⟨hab, h2⟩ := h
      subst hab
      obtain ⟨t, ht⟩ := ih h2
      subst ht
      exact ⟨t, rfl⟩

theorem isPrefixOf_append_self (l t : List Char) : l.isPrefixOf (l ++ t) = true := by
  induction l with
  | nil => simp [List.isPrefixOf]
  | cons a l ih => simp [List.isPrefixOf, ih]

theorem splitCharsetF_ne_nil (fuel : Nat) (s : Cell) : splitCharsetF fuel s ≠ [] := by
  cases fuel with
  | zero => simp [splitCharsetF]
  | succ f =>
    cases s with
    | nil => simp [splitCharsetF]
    | cons c rest =>
      simp only [splitCharsetF]
      split
      · simp
      · split <;> simp

theorem splitCharsetF_join (fuel : Nat) :
    ∀ s : Cell, s.length < fuel → joinCharset (splitCharsetF fuel s) = s := by
  induction fuel with
  | zero => intro s h; exact absurd h (Nat.not_lt_zero _)
  | succ f ih =>
    intro s h
    cases s with
    | nil => rfl
    | cons c rest =>
      simp only [splitCharsetF]
      split
      · next hpre =>
        obtain ⟨t, ht⟩ := isPrefixOf_exists hpre
        have hc : c = 'c' := by
          rw [show charsetSep = 'c' :: ['h', 'a', 'r', 's', 'e', 't', '='] from rfl] at ht
          exact (List.cons.injEq _ _ _ _ ▸ ht).1
        have hrest : rest = ['h', 'a', 'r', 's', 'e', 't', '='] ++ t := by
          rw [show charsetSep = 'c' :: ['h', 'a', 'r', 's', 'e', 't', '='] from rfl] at ht
          exact (List.cons.injEq _ _ _ _ ▸ ht).2
        have hdrop : rest.drop 7 = t := by
          rw [hrest]
          simp
        have hlen : (rest.drop 7).length < f := by
          have := List.length_drop 7 rest
          simp only [List.length_cons] at h
          omega
        cases hl : splitCharsetF f (rest.drop 7) with
        | nil => exact absurd hl (splitCharsetF_ne_nil f _)
        | cons p ps =>
          have hj := ih (rest.drop 7) hlen
          rw [hl] at hj
          show joinCharset ([] :: p :: ps) = c :: rest
          rw [show joinCharset ([] :: p :: ps)
              = [] ++ charsetSep ++ joinCharset (p :: ps) from rfl, hj, hdrop,
            List.nil_append, hc, hrest]
          rfl
      · next hpre =>
        have hlen : rest.length < f := by
          simp only [List.length_cons] at h
          omega
        cases hl : splitCharsetF f rest with
        | nil => exact absurd hl (splitCharsetF_ne_nil f _)
        | cons p ps =>
          have hj := ih rest hlen
          rw [hl] at hj
          cases ps with
          | nil =>
            show joinCharset [c :: p] = c :: rest
            rw [show joinCharset [c :: p] = c :: p from rfl]
            rw [show joinCharset [p] = p from rfl] at hj
            rw [hj]
          | cons q qs =>
            show joinCharset ((c :: p) :: q :: qs) = c :: rest
            rw [show joinCharset ((c :: p) :: q :: qs)
                = (c :: p) ++ charsetSep ++ joinCharset (q :: qs) from rfl]
            rw [show joinCharset (p :: q :: qs)
                = p ++ charsetSep ++ joinCharset (q :: qs) from rfl] at hj
            rw [← hj]
            rfl

theorem splitCharsetF_sep_head (f : Nat) (post : Cell) :
    splitCharsetF (f + 1) (charsetSep ++ post) = [] :: splitCharsetF f post := by
  show splitCharsetF (f + 1)
      ('c' :: (['h', 'a', 'r', 's', 'e', 't', '='] ++ post)) = _
  simp only [splitCharsetF]
  have hcond : List.isPrefixOf charsetSep
      ('c' :: (['h', 'a', 'r', 's', 'e', 't', '='] ++ post)) = true :=
    isPrefixOf_append_self charsetSep post
  rw [if_pos hcond]
  congr 1

theorem splitCharsetF_two_le (pre : Cell) :
    ∀ (post : Cell) (fuel : Nat), (pre ++ charsetSep ++ post).length < fuel →
      2 ≤ (splitCharsetF fuel (pre ++ charsetSep ++ post)).length := by
  induction pre with
  | nil =>
    intro post fuel h
    cases fuel with
    | zero => exact absurd h (Nat.not_lt_zero _)
    | succ f =>
      rw [List.nil_append, splitCharsetF_sep_head]
      have := List.length_pos.2 (splitCharsetF_ne_nil f post)
      simp only [List.length_cons]
      omega
  | cons a pre' ih =>
    intro post fuel h
    cases fuel with
    | zero => exact absurd h (Nat.not_lt_zero _)
    | succ f =>
      have hlen : (pre' ++ charsetSep ++ post).length < f := by
        simp only [List.cons_append, List.length_cons] at h
        omega
      show 2 ≤ (splitCharsetF (f + 1) (a :: (pre' ++ charsetSep ++ post))).length
      simp only [splitCharsetF]
      split
      · have := List.length_pos.2 (splitCharsetF_ne_nil f
          ((pre' ++ charsetSep ++ post).drop 7))
        simp only [List.length_cons]
        omega
      · cases hl : splitCharsetF f (pre' ++ charsetSep ++ post) with
        | nil => exact absurd hl (splitCharsetF_ne_nil f _)
        | cons p ps =>
          have h2 := ih post f hlen
          rw [hl] at h2
          simp only [List.length_cons] at h2 ⊢
          omega

/-- C10 (amended): extracting the charset hint never fails: when the
result is `none`, either there was no (truthy) Content-Type value or the
value does not contain `charset=`; when it is `some e`, the value
decomposes as text, then `charset=`, then the hint `e`, then a rest that
is either empty or itself starts with another `charset=` marker — i.e.
the hint is the text after the marker truncated at the marker's next
occurrence, not everything after it. -/
theorem C10_charset_extraction (ct : Option Cell) :
    (extract_encoding ct = none →
      ct = none ∨ ∃ s, ct = some s ∧ ¬ ∃ pre post, s = pre ++ charsetSep ++ post)
  ∧ (∀ e, extract_encoding ct = some e →
      ∃ s p0 tail, ct = some s ∧ s = p0 ++ charsetSep ++ e ++ tail
        ∧ (tail = [] ∨ ∃ u, tail = charsetSep ++ u)) := by
  cases ct with
  | none =>
    exact ⟨fun _ => Or.inl rfl, fun e he => absurd he (by simp [extract_encoding])⟩
  | some s =>
    constructor
    · intro hn
      right
      refine ⟨s, rfl, ?_⟩
      rintro ⟨pre, post, rfl⟩
      have h2 := splitCharsetF_two_le pre post
        ((pre ++ charsetSep ++ post).length + 1) (by omega)
      have hne : (pre ++ charsetSep ++ post).isEmpty = false := by
        cases pre <;> rfl
      simp only [extract_encoding, hne, Bool.false_eq_true, if_false] at hn
      cases hsp : splitCharset (pre ++ charsetSep ++ post) with
      | nil =>
        rw [show splitCharset (pre ++ charsetSep ++ post)
            = splitCharsetF ((pre ++ charsetSep ++ post).length + 1)
                (pre ++ charsetSep ++ post) from rfl] at hsp
        rw [hsp] at h2
        exact absurd h2 (by simp)
      | cons p rest =>
        cases rest with
        | nil =>
          rw [show splitCharset (pre ++ charsetSep ++ post)
              = splitCharsetF ((pre ++ charsetSep ++ post).length + 1)
                  (pre ++ charsetSep ++ post) from rfl] at hsp
          rw [hsp] at h2
          exact absurd h2 (by simp)
        | cons e' rest2 =>
          rw [hsp] at hn
          exact absurd hn (by simp)
    · intro e he
      simp only [extract_encoding] at he
      split at he
      · exact absurd he (by simp)
      · cases hsp : splitCharset s with
        | nil => rw [hsp] at he; exact absurd he (by simp)
        | cons p0 rest =>
          cases rest with
          | nil => rw [hsp] at he; exact absurd he (by simp)
          | cons e' rest2 =>
            rw [hsp] at he
            simp only [Option.some.injEq] at he
            subst he
            have hj : joinCharset (splitCharset s) = s :=
              splitCharsetF_join (s.length + 1) s (by omega)
            rw [hsp] at hj
            rw [show joinCharset (p0 :: e' :: rest2)
                = p0 ++ charsetSep ++ joinCharset (e' :: rest2) from rfl] at hj
            cases rest2 with
            | nil =>
              refine ⟨s, p0, [], rfl, ?_, Or.inl rfl⟩
              rw [show joinCharset [e'] = e' from rfl] at hj
              rw [← hj]
              simp [List.append_assoc]
            | cons q qs =>
              refine ⟨s, p0, charsetSep ++ joinCharset (q :: qs), rfl, ?_,
                Or.inr ⟨joinCharset (q :: qs), rfl⟩⟩
              rw [show joinCharset (e' :: q :: qs)
                  = e' ++ charsetSep ++ joinCharset (q :: qs) from rfl] at hj
              rw [← hj]
              simp [List.append_assoc]

/-- Witness for C10: `text/html; charset=utf-8` yields the hint `utf-8`,
which indeed follows the `charset=` marker in the header value. -/
theorem C10_charset_extraction_witness :
    ∃ s p0 tail, (some ctExample : Option Cell) = some s
      ∧ s = p0 ++ charsetSep ++ strUtf8 ++ tail
      ∧ (tail = [] ∨ ∃ u, tail = charsetSep ++ u) :=
  (C10_charset_extraction (some ctExample)).2 strUtf8 (by decide)

/-- Counterexample for C10 as stated: in the value
`charset=utf-8; charset=x` the text after the substring `charset=` is
`utf-8; charset=x`, but the extracted hint is `utf-8; ` — the split stops
at the next occurrence of the marker. -/
theorem C10_after_marker_counterexample :
    ctTwo = charsetSep ++ (hintTwo ++ charsetSep ++ ['x'])
    ∧ extract_encoding (some ctTwo) ≠ some (hintTwo ++ charsetSep ++ ['x'])
    ∧ extract_encoding (some ctTwo) = some hintTwo :=
  ⟨by decide, by decide, by decide⟩

end Scrapetable
